import Mathlib

/-!
Shallow embedding of `src/scripts/initial_data.py`: the CSV column extractor
(`get_column_value_list`), the account provisioner (`create_users`) and the
entry point (`run`), together with proofs of the specified properties.

Files are modelled by their parsed row lists (`List (List String)`); the raw
text layer (dialect sniffing and the `csv.reader` call) is modelled separately
on `String` contents.  Printing to stderr and `sys.exit(1)` are modelled by an
`Except` value carrying the offending 1-based line number; the non-fatal
"Mismatched line" diagnostics are collected in a list of line numbers.
-/

set_option maxRecDepth 8192

namespace InitialData

/-- Split a character list at every occurrence of `c` (occurrences deleted);
the result always has one more group than there are occurrences of `c`, like
Python `str.split(c)` and `String.splitOn`. -/
def splitOnChar (c : Char) : List Char → List (List Char)
  | [] => [[]]
  | a :: rest =>
    match splitOnChar c rest with
    | [] => if a = c then [[], []] else [[a]]
    | g :: gs => if a = c then [] :: g :: gs else (a :: g) :: gs

/-- Model of `csv.Sniffer().sniff` restricted to unquoted samples: among the
preferred delimiters `[',', '\t', ';', ' ', ':']` (the order the sniffer
prefers), return the first one that occurs a positive and identical number of
times on every non-empty line of the sample; `none` when no candidate
qualifies (the sniffer raises an error in that case). -/
def sniffDelimiter (sample : String) : Option Char :=
  let lines := (splitOnChar '\n' sample.data).filter (fun l => l ≠ [])
  match lines with
  | [] => none
  | l0 :: rest =>
    [',', '\t', ';', ' ', ':'].find? (fun d =>
      0 < l0.count d ∧ rest.all (fun l => l.count d = l0.count d))

/-- Split file content into CSV rows using a fixed delimiter character.
Models `csv.reader` on quote-free content: one row per line, a blank line
giving an empty row, and a trailing newline producing no extra row. -/
def csvReadRows (content : String) (delim : Char) : List (List String) :=
  let lines := splitOnChar '\n' content.data
  let lines := if lines.getLast? = some [] then lines.dropLast else lines
  lines.map (fun line =>
    if line = [] then [] else (splitOnChar delim line).map String.mk)

/-- `file_in.read(1024)`: the first 1024 characters of the content (the files
are ASCII, so characters coincide with bytes). -/
def sample1024 (content : String) : String :=
  String.mk (content.data.take 1024)

/-- The delimiter `csv.reader` actually uses: an explicit `delimiter=` keyword
argument overrides the delimiter of the `dialect=` argument (per the `csv`
module, keyword format parameters override the dialect's attributes). -/
def csvReaderDelimiter (dialectDelim : Option Char) (kwDelim : Option Char) : Option Char :=
  kwDelim.orElse (fun _ => dialectDelim)

/-- Per-file parsing step of `get_column_value_list` (lines 29-32 of the
script): sniff a dialect from the first 1024 bytes, seek back to the start and
read with `csv.reader(file_in, dialect=dialect, delimiter=str(','))` — the
explicit comma keyword overrides the sniffed delimiter. -/
def parseFile (content : String) : List (List String) :=
  let dialect := sniffDelimiter (sample1024 content)
  match csvReaderDelimiter dialect (some ',') with
  | some d => csvReadRows content d
  | none => csvReadRows content ','

/-- What the spec describes: parse the file with the sniffed dialect itself
(no comma override).  Used to compare the code against the spec's words. -/
def parseFileWithSniffedDialect (content : String) : List (List String) :=
  match sniffDelimiter (sample1024 content) with
  | some d => csvReadRows content d
  | none => csvReadRows content ','

/-- Python `data[i]` on a list of strings, for an index already known to be
below `len(data)`: a negative index counts from the end. -/
def pyNth (data : List String) (i : Int) : String :=
  if 0 ≤ i then data.getD i.toNat "" else data.getD (data.length - i.natAbs) ""

/-- The row loop of `get_column_value_list` for one file (lines 37-76).
Arguments mirror the Python locals: the remaining rows, `line_number`,
`header_detected`, `col_idx` (initially `-1`), the accumulated `result`, and
the collected "Mismatched line" warning line numbers.  `sys.exit(1)` on a
`#REF!`/`#VALUE` row becomes `.error line_number`. -/
def get_column_value_loop (column_name : String) :
    List (List String) → Nat → Bool → Int → List String → List Nat →
    Except Nat (List String × List Nat)
  | [], _, _, _, result, warns => .ok (result, warns)
  | data :: rest, line_number, header_detected, col_idx, result, warns =>
    -- line_number += 1
    let ln := line_number + 1
    if header_detected = false then
      if column_name ∈ data then
        -- header found: col_idx = data.index(column_name); continue
        get_column_value_loop column_name rest ln true (data.indexOf column_name : Int)
          result warns
      else
        -- line does not match, skip it
        get_column_value_loop column_name rest ln false col_idx result warns
    else if "#REF!" ∈ data ∨ "#VALUE" ∈ data then
      -- print('Line', line_number, 'contains incorrect data'); sys.exit(1)
      .error ln
    else if (data.length : Int) ≤ col_idx then
      -- print('Mismatched line', line_number, 'skipping'); continue
      get_column_value_loop column_name rest ln true col_idx result (warns ++ [ln])
    else
      -- result.append(data[col_idx])
      get_column_value_loop column_name rest ln true col_idx
        (result ++ [pyNth data col_idx]) warns

/-- Processing of a single file by `get_column_value_list`: the loop started
with `line_number = 0`, `header_detected = False`, `col_idx = -1`. -/
def process_file (column_name : String) (rows : List (List String)) :
    Except Nat (List String × List Nat) :=
  get_column_value_loop column_name rows 0 false (-1) [] []

/-- `get_column_value_list` over already-parsed files: each file is processed
with freshly initialised per-file state, results (and warnings) concatenated
in file order; a fatal row aborts the whole run, discarding everything. -/
def get_column_value_list (filenames : List (List (List String))) (column_name : String) :
    Except Nat (List String × List Nat) :=
  match filenames with
  | [] => .ok ([], [])
  | f :: fs =>
    match process_file column_name f with
    | .error e => .error e
    | .ok (r, w) =>
      match get_column_value_list fs column_name with
      | .error e => .error e
      | .ok (rs, ws) => .ok (r ++ rs, w ++ ws)

/-- `get_column_value_list` from raw file contents: parse each file as the
script does, then run the row loop. -/
def get_column_value_list_raw (contents : List String) (column_name : String) :
    Except Nat (List String × List Nat) :=
  get_column_value_list (contents.map parseFile) column_name

example : process_file "email"
    [["note"], ["id", "email"], ["1", "a@x.com"], ["2", "b@x.com"]] =
    .ok (["a@x.com", "b@x.com"], []) := by rfl

example : process_file "email" [["email"], ["a@x.com"], ["#REF!", "oops"]] =
    .error 3 := by rfl

/-! ## The account store and `create_users` -/

/-- A user account in the store: Django's user model restricted to the fields
this script reads or writes.  `groups` is the list of group names the account
belongs to, in the order memberships were added. -/
structure Account where
  email : String
  name : String
  password : String
  groups : List String
deriving DecidableEq

/-- Django's `set_password` stores a salted hash of the raw password; the hash
function itself is opaque to this script, so it is modelled as an injective
tagging of the raw password. -/
def hash_password (raw : String) : String :=
  "pbkdf2:" ++ raw

/-- `objects.filter(email=...)` / the lookup part of `get_or_create`: the
first account in the store with the given email. -/
def db_find (db : List Account) (email : String) : Option Account :=
  db.find? (fun a => a.email = email)

/-- `user.save()` on an account already present in the store: replace the
row(s) keyed by the account's email. -/
def db_save (db : List Account) (a : Account) : List Account :=
  db.map (fun b => if b.email = a.email then a else b)

/-- `get_user_model().objects.get_or_create(email=email)`: return the existing
account and `created = False`, or insert a fresh account with only the email
set and return it with `created = True`. -/
def get_or_create (db : List Account) (email : String) :
    Account × Bool × List Account :=
  match db_find db email with
  | some a => (a, false, db)
  | none =>
    let a : Account := { email := email, name := "", password := "", groups := [] }
    (a, true, db ++ [a])

/-- The body of the `for email in emails` loop of `create_users`
(lines 93-114): get-or-create the account, on creation set its name and
password and save, then add the group membership when a group was given and
the account is not yet a member. -/
def create_user_step (password : String) (group : Option String)
    (db : List Account) (email : String) : List Account :=
  let gc := get_or_create db email
  let user := gc.1
  let created := gc.2.1
  let db1 := gc.2.2
  let step2 : Account × List Account :=
    if created then
      let u := { user with name := "User Name", password := hash_password password }
      (u, db_save db1 u)
    else (user, db1)
  let user := step2.1
  let db2 := step2.2
  match group with
  | none => db2
  | some g =>
    if g ∈ user.groups then db2
    else db_save db2 { user with groups := user.groups ++ [g] }

/-- `create_users`: run the per-email step over the email list in order. -/
def create_users (emails : List String) (password : String)
    (group : Option String) (db : List Account) : List Account :=
  emails.foldl (create_user_step password group) db

/-- The store keeps at most one account per email. -/
def EmailsUnique (db : List Account) : Prop :=
  (db.map Account.email).Nodup

example :
    create_users ["a@x.com", "b@x.com", "a@x.com"] "pw" (some "instructor") [] =
    [{ email := "a@x.com", name := "User Name", password := "pbkdf2:pw",
       groups := ["instructor"] },
     { email := "b@x.com", name := "User Name", password := "pbkdf2:pw",
       groups := ["instructor"] }] := by decide

/-! ## The entry point `run` -/

/-- Model of `shlex.split` for the inputs this script receives: tokens
separated by spaces, with no embedded quoting or escapes. -/
def shlex_split (s : String) : List String :=
  ((splitOnChar ' ' s.data).filter (fun t => t ≠ [])).map String.mk

/-- Does this option character take an argument?  The option string passed to
`getopt.getopt` is `"de:ip:"`: `-e` and `-p` take arguments, `-d` and `-i` do
not. -/
def optTakesArg (c : Char) : Bool :=
  c = 'e' ∨ c = 'p'

/-- Is this option character declared in the option string `"de:ip:"`? -/
def optKnown (c : Char) : Bool :=
  c = 'd' ∨ c = 'e' ∨ c = 'i' ∨ c = 'p'

/-- Process the option characters of one `-xyz` token under `getopt.getopt`
semantics for `"de:ip:"`.  `nextTok` is the following argv token; the boolean
reports whether it was consumed as an option argument. -/
def getopt_token : List Char → Option String →
    Except String (List (String × String) × Bool)
  | [], _ => .ok ([], false)
  | c :: cs, nextTok =>
    if optKnown c then
      if optTakesArg c then
        match cs with
        | [] =>
          match nextTok with
          | none => .error ("option -" ++ String.mk [c] ++ " requires argument")
          | some v => .ok ([("-" ++ String.mk [c], v)], true)
        | _ => .ok ([("-" ++ String.mk [c], String.mk cs)], false)
      else
        match getopt_token cs nextTok with
        | .error e => .error e
        | .ok (os, consumed) => .ok (("-" ++ String.mk [c], "") :: os, consumed)
    else .error ("option -" ++ String.mk [c] ++ " not recognized")

/-- `getopt.getopt(argv, "de:ip:")`: option/value pairs followed by the
remaining positional arguments.  Option parsing stops at `--` or at the first
token that does not look like an option. -/
def getopt_loop : List String → Except String (List (String × String) × List String)
  | [] => .ok ([], [])
  | tok :: rest =>
    if tok = "--" then .ok ([], rest)
    else
      match tok.data with
      | '-' :: c :: cs =>
        -- a token of at least two characters starting with '-' is an option
        -- cluster; '-' alone and non-dash tokens end option parsing
        (match getopt_token (c :: cs) rest.head? with
          | .error e => .error e
          | .ok (os, false) =>
            match getopt_loop rest with
            | .error e => .error e
            | .ok (os2, args) => .ok (os ++ os2, args)
          | .ok (os, true) =>
            match rest with
            | [] => .ok (os, [])
            | _ :: rest2 =>
              match getopt_loop rest2 with
              | .error e => .error e
              | .ok (os2, args) => .ok (os ++ os2, args))
      | _ => .ok ([], tok :: rest)

/-- The externals `run` interacts with: which files exist, the parsed rows of
each file, and the superuser environment variables (`none` = unset). -/
structure RunEnv where
  fileExists : String → Bool
  fileRows : String → List (List String)
  superuserName : Option String
  superuserPassword : Option String

/-- The persistent state `run` mutates: the user store and the group table
(a list of group names). -/
structure RunState where
  users : List Account
  groupNames : List String
deriving DecidableEq

/-- How a call to `run` ended: `sys.exit(code)` or a normal return. -/
inductive RunOutcome where
  | exited (code : Nat)
  | finished
deriving DecidableEq

/-- Observable result of `run`: the outcome, the file names reported as not
found, and the final persistent state. -/
structure RunResult where
  outcome : RunOutcome
  missingFiles : List String
  state : RunState
deriving DecidableEq

/-- The entry point `run(*script_args)` (lines 117-226): bomb out with exit
code 1 when no argument is given; split the first argument and parse options
(exit code 2 on a `getopt` error); ensure the `instructor` group exists;
create the superuser from the environment variables when set and absent;
filter the given files to those that exist, reporting the missing ones;
return doing nothing further when no file remains; otherwise extract the
email column and provision the users (a fatal extractor row exits with
code 1). -/
def run (script_args : List String) (env : RunEnv) (st : RunState) : RunResult :=
  match script_args with
  | [] => { outcome := .exited 1, missingFiles := [], state := st }
  | s0 :: _ =>
    let argv := shlex_split s0
    match getopt_loop argv with
    | .error _ => { outcome := .exited 2, missingFiles := [], state := st }
    | .ok (opts, args) =>
      let email_column_name :=
        opts.foldl (fun acc ov => if ov.1 = "-e" then ov.2 else acc) "email"
      let password :=
        opts.foldl (fun acc ov => if ov.1 = "-p" then ov.2 else acc)
          "changethepassword"
      let filenames := args
      -- Step 1: the instructor group (get the existing one or create it).
      let st1 : RunState :=
        if "instructor" ∈ st.groupNames then st
        else { st with groupNames := st.groupNames ++ ["instructor"] }
      -- Step 2: the superuser from the environment variables.  Python's
      -- `if suname and ...` also skips the empty string.
      let st2 : RunState :=
        match env.superuserName with
        | none => st1
        | some suname =>
          if suname = "" then st1
          else if (db_find st1.users suname).isSome then st1
          else { st1 with users := st1.users ++
            [{ email := suname, name := "",
               password := hash_password (env.superuserPassword.getD ""),
               groups := ["instructor"] }] }
      let not_present := filenames.filter (fun x => ¬ env.fileExists x)
      let filenames :=
        if not_present ≠ [] then filenames.filter (fun x => x ∉ not_present)
        else filenames
      if filenames = [] then
        -- print('No files provided to create users. Terminating'); return
        { outcome := .finished, missingFiles := not_present, state := st2 }
      else
        match get_column_value_list (filenames.map env.fileRows) email_column_name with
        | .error _ => { outcome := .exited 1, missingFiles := not_present, state := st2 }
        | .ok (emails, _) =>
          { outcome := .finished, missingFiles := not_present,
            state := { st2 with
              users := create_users emails password (some "instructor") st2.users } }

/-! ## Step equations for the row loop -/

theorem loop_cons_skip {column_name : String} {data : List String}
    {rest : List (List String)} {ln : Nat} {ci : Int} {res : List String}
    {ws : List Nat} (h : column_name ∉ data) :
    get_column_value_loop column_name (data :: rest) ln false ci res ws =
      get_column_value_loop column_name rest (ln + 1) false ci res ws := by
  simp [get_column_value_loop, h]

theorem loop_cons_header {column_name : String} {data : List String}
    {rest : List (List String)} {ln : Nat} {ci : Int} {res : List String}
    {ws : List Nat} (h : column_name ∈ data) :
    get_column_value_loop column_name (data :: rest) ln false ci res ws =
      get_column_value_loop column_name rest (ln + 1) true
        (data.indexOf column_name : Int) res ws := by
  simp [get_column_value_loop, h]

theorem loop_cons_marker {column_name : String} {data : List String}
    {rest : List (List String)} {ln : Nat} {ci : Int} {res : List String}
    {ws : List Nat} (h : "#REF!" ∈ data ∨ "#VALUE" ∈ data) :
    get_column_value_loop column_name (data :: rest) ln true ci res ws =
      .error (ln + 1) := by
  simp [get_column_value_loop, h]

theorem loop_cons_short {column_name : String} {data : List String}
    {rest : List (List String)} {ln : Nat} {ci : Int} {res : List String}
    {ws : List Nat} (h : ¬("#REF!" ∈ data ∨ "#VALUE" ∈ data))
    (hlen : (data.length : Int) ≤ ci) :
    get_column_value_loop column_name (data :: rest) ln true ci res ws =
      get_column_value_loop column_name rest (ln + 1) true ci res (ws ++ [ln + 1]) := by
  simp [get_column_value_loop, h, hlen]

theorem loop_cons_value {column_name : String} {data : List String}
    {rest : List (List String)} {ln : Nat} {ci : Int} {res : List String}
    {ws : List Nat} (h : ¬("#REF!" ∈ data ∨ "#VALUE" ∈ data))
    (hlen : ci < (data.length : Int)) :
    get_column_value_loop column_name (data :: rest) ln true ci res ws =
      get_column_value_loop column_name rest (ln + 1) true ci
        (res ++ [pyNth data ci]) ws := by
  simp [get_column_value_loop, h, not_le.mpr hlen]

/-- Rows that do not mention the column name are skipped while the header has
not been detected, only advancing the line counter. -/
theorem loop_skip_preheader {column_name : String} (pre : List (List String))
    {rows : List (List String)} {ln : Nat} {ci : Int} {res : List String}
    {ws : List Nat} (h : ∀ r ∈ pre, column_name ∉ r) :
    get_column_value_loop column_name (pre ++ rows) ln false ci res ws =
      get_column_value_loop column_name rows (ln + pre.length) false ci res ws := by
  induction pre generalizing ln with
  | nil => simp
  | cons p ps ih =>
    have hlen : ln + 1 + ps.length = ln + (p :: ps).length := by
      simp only [List.length_cons]
      omega
    rw [List.cons_append, loop_cons_skip (h p (by simp)),
      ih (fun r hr => h r (by simp [hr])), hlen]

/-- A fatal outcome always carries a line number beyond the current counter:
the loop never reports a line it has already passed. -/
theorem loop_error_gt {column_name : String} {rows : List (List String)}
    {ln : Nat} {hd : Bool} {ci : Int} {res : List String} {ws : List Nat}
    {e : Nat}
    (h : get_column_value_loop column_name rows ln hd ci res ws = .error e) :
    ln < e := by
  induction rows generalizing ln hd ci res ws with
  | nil => simp [get_column_value_loop] at h
  | cons data rest ih =>
    by_cases hhd : hd = false
    · subst hhd
      by_cases hmem : column_name ∈ data
      · rw [loop_cons_header hmem] at h
        exact Nat.lt_of_succ_lt (ih h)
      · rw [loop_cons_skip hmem] at h
        exact Nat.lt_of_succ_lt (ih h)
    · rw [Bool.not_eq_false] at hhd
      subst hhd
      by_cases hmark : "#REF!" ∈ data ∨ "#VALUE" ∈ data
      · rw [loop_cons_marker hmark] at h
        simp only [Except.error.injEq] at h
        omega
      · by_cases hlen : (data.length : Int) ≤ ci
        · rw [loop_cons_short hmark hlen] at h
          exact Nat.lt_of_succ_lt (ih h)
        · rw [loop_cons_value hmark (not_le.mp hlen)] at h
          exact Nat.lt_of_succ_lt (ih h)

/-- Processing a prefix of files that succeeds contributes its values and
warnings in front of whatever the remaining files produce. -/
theorem gcvl_append {column_name : String} {fs1 fs2 : List (List (List String))}
    {r : List String} {w : List Nat}
    (h : get_column_value_list fs1 column_name = .ok (r, w)) :
    get_column_value_list (fs1 ++ fs2) column_name =
      match get_column_value_list fs2 column_name with
      | .error e => .error e
      | .ok (r2, w2) => .ok (r ++ r2, w ++ w2) := by
  induction fs1 generalizing r w with
  | nil =>
    simp [get_column_value_list] at h
    simp [h.1, h.2]
    cases get_column_value_list fs2 column_name with
    | error e => rfl
    | ok p => rfl
  | cons f fs ih =>
    rw [get_column_value_list] at h
    rw [List.cons_append, get_column_value_list]
    cases hf : process_file column_name f with
    | error e => simp [hf] at h
    | ok p =>
      obtain ⟨r1, w1⟩ := p
      rw [hf] at h
      cases hfs : get_column_value_list fs column_name with
      | error e => simp [hfs] at h
      | ok q =>
        obtain ⟨rr, ww⟩ := q
        rw [hfs] at h
        simp only [Except.ok.injEq, Prod.mk.injEq] at h
        rw [ih hfs]
        cases get_column_value_list fs2 column_name with
        | error e => rfl
        | ok p2 =>
          obtain ⟨r2, w2⟩ := p2
          simp [← h.1, ← h.2]

/-! ## Claims about the extractor's row loop -/

/-- C2: a post-header row with a field equal to `#REF!` or `#VALUE` halts the
run at once, reporting the row's 1-based line number: the loop returns that
fatal line number whatever the remaining rows and the resolved column index
are (in particular for an index out of range for the row, so the corruption
check takes priority over the shape check), and a file that fails this way
turns the whole multi-file extraction into the same fatal outcome, with no
value collected from the rest of that file or from any later file. -/
theorem C2_corruption_marker_halts_run :
    (∀ (column_name : String) (bad : List String) (rest : List (List String))
        (ln : Nat) (ci : Int) (res : List String) (ws : List Nat),
      ("#REF!" ∈ bad ∨ "#VALUE" ∈ bad) →
      get_column_value_loop column_name (bad :: rest) ln true ci res ws =
        .error (ln + 1)) ∧
    (∀ (column_name : String) (fs1 : List (List (List String)))
        (f : List (List String)) (fs2 : List (List (List String)))
        (r : List String) (w : List Nat) (e : Nat),
      get_column_value_list fs1 column_name = .ok (r, w) →
      process_file column_name f = .error e →
      get_column_value_list (fs1 ++ f :: fs2) column_name = .error e) := by
  constructor
  · intro _ _ _ _ _ _ _ h
    exact loop_cons_marker h
  · intro cn fs1 f fs2 r w e h1 h2
    rw [gcvl_append h1]
    simp [get_column_value_list, h2]

/-- Witness for C2: a `#REF!` row three fields too short for column index 99
still aborts (priority over the shape check), and a `#VALUE` field on line 3
of the second of three files aborts the whole extraction with line 3. -/
theorem C2_corruption_marker_witness :
    get_column_value_loop "email" [["#REF!"], ["ok"]] 1 true 99 [] [] =
      .error 2 ∧
    get_column_value_list
      [[["email"], ["a@x.com"]],
       [["email"], ["b@x.com"], ["#VALUE", "x"]],
       [["email"], ["c@x.com"]]] "email" = .error 3 := by
  constructor
  · exact C2_corruption_marker_halts_run.1 "email" ["#REF!"] [["ok"]] 1 99 [] []
      (Or.inl (by decide))
  · exact C2_corruption_marker_halts_run.2 "email" [[["email"], ["a@x.com"]]]
      [["email"], ["b@x.com"], ["#VALUE", "x"]] [[["email"], ["c@x.com"]]]
      ["a@x.com"] [] 3 (by rfl) (by rfl)

/-- C3: the first row containing the target column name fixes the column
index for the rest of the file — processing a file whose rows before the
header never mention the column name reduces to running the post-header loop
over the remaining rows with the index resolved from the header (the header
itself contributing no value, the skipped prefix none either, whatever its
content); and a file's contribution to the multi-file result is determined
by processing that file alone from freshly initialised state, so no index is
carried across files. -/
theorem C3_header_fixes_column_index :
    (∀ (column_name : String) (pre : List (List String)) (hdr : List String)
        (post : List (List String)),
      (∀ r ∈ pre, column_name ∉ r) → column_name ∈ hdr →
      process_file column_name (pre ++ hdr :: post) =
        get_column_value_loop column_name post (pre.length + 1) true
          (hdr.indexOf column_name : Int) [] []) ∧
    (∀ (column_name : String) (f g : List (List String))
        (fs : List (List (List String))),
      process_file column_name f = process_file column_name g →
      get_column_value_list (f :: fs) column_name =
        get_column_value_list (g :: fs) column_name) := by
  constructor
  · intro cn pre hdr post hpre hmem
    rw [process_file, loop_skip_preheader pre hpre, Nat.zero_add,
      loop_cons_header hmem]
  · intro cn f g fs h
    rw [get_column_value_list, get_column_value_list, h]

/-- Witness for C3: a comment row is skipped, the header `["id", "email"]`
resolves index 1 even though `"email"` reappears as a data value below; and
two files differing in leading junk rows contribute identically. -/
theorem C3_header_witness :
    process_file "email" [["note"], ["id", "email"], ["email", "z"]] =
      get_column_value_loop "email" [["email", "z"]] 2 true 1 [] [] ∧
    get_column_value_list
        [[["email"], ["a@x.com"]], [["email"], ["b@x.com"]]] "email" =
      get_column_value_list
        [[["junk"], ["email"], ["a@x.com"]], [["email"], ["b@x.com"]]] "email" := by
  constructor
  · exact C3_header_fixes_column_index.1 "email" [["note"]] ["id", "email"]
      [["email", "z"]] (by decide) (by decide)
  · exact C3_header_fixes_column_index.2 "email" [["email"], ["a@x.com"]]
      [["junk"], ["email"], ["a@x.com"]] [[["email"], ["b@x.com"]]] (by rfl)

/-- C4: a post-header row whose field count is at most the resolved column
index is skipped non-fatally: its 1-based line number is recorded as a
diagnostic, no value is taken from it, and the loop continues with the
remaining rows; concretely, a file with such a row still yields the values of
its later rows and those of later files. -/
theorem C4_short_row_skipped_nonfatal :
    (∀ (column_name : String) (row : List String) (rest : List (List String))
        (ln : Nat) (ci : Int) (res : List String) (ws : List Nat),
      ¬("#REF!" ∈ row ∨ "#VALUE" ∈ row) → (row.length : Int) ≤ ci →
      get_column_value_loop column_name (row :: rest) ln true ci res ws =
        get_column_value_loop column_name rest (ln + 1) true ci res
          (ws ++ [ln + 1])) ∧
    get_column_value_list
      [[["id", "email"], ["1"], ["2", "b@x.com"]], [["email"], ["c@y.com"]]]
      "email" = .ok (["b@x.com", "c@y.com"], [2]) := by
  constructor
  · intro _ _ _ _ _ _ _ h hlen
    exact loop_cons_short h hlen
  · rfl

/-- Witness for C4: a row of one field under column index 1 on line 5 is
logged as line 5 and skipped, the loop moving on to the remaining rows. -/
theorem C4_short_row_witness :
    get_column_value_loop "email" [["only"], ["x", "y"]] 4 true 1 [] [] =
      get_column_value_loop "email" [["x", "y"]] 5 true 1 [] [5] := by
  exact C4_short_row_skipped_nonfatal.1 "email" ["only"] [["x", "y"]] 4 1 [] []
    (by decide) (by decide)

/-- C5: the concrete scenario of the spec extracts exactly
`["a@x.com", "b@x.com"]`, and extraction distributes over file concatenation:
values (and diagnostics) of a successful prefix of files come first, in
order, followed by those of the remaining files. -/
theorem C5_concatenation_in_order :
    get_column_value_list
      [[["note"], ["id", "email"], ["1", "a@x.com"], ["2", "b@x.com"]]]
      "email" = .ok (["a@x.com", "b@x.com"], []) ∧
    (∀ (column_name : String) (fs1 fs2 : List (List (List String)))
        (r1 r2 : List String) (w1 w2 : List Nat),
      get_column_value_list fs1 column_name = .ok (r1, w1) →
      get_column_value_list fs2 column_name = .ok (r2, w2) →
      get_column_value_list (fs1 ++ fs2) column_name =
        .ok (r1 ++ r2, w1 ++ w2)) := by
  refine ⟨by rfl, ?_⟩
  intro cn fs1 fs2 r1 r2 w1 w2 h1 h2
  rw [gcvl_append h1, h2]

/-- Witness for C5: two one-file lists concatenate to the two-file run. -/
theorem C5_concatenation_witness :
    get_column_value_list
      [[["email"], ["a@x.com"]], [["email"], ["b@x.com"]]] "email" =
      .ok (["a@x.com", "b@x.com"], []) := by
  exact C5_concatenation_in_order.2 "email" [[["email"], ["a@x.com"]]]
    [[["email"], ["b@x.com"]]] ["a@x.com"] ["b@x.com"] [] [] (by rfl) (by rfl)

/-- C9: when the header row contains the target column name several times,
`data.index` resolves the zero-based position of the leftmost occurrence:
the resolved index equals the length of the prefix before the first
occurrence, the file reduces to the post-header loop running at that index,
and every sufficiently long clean row contributes precisely its field at that
position. -/
theorem C9_leftmost_header_occurrence :
    ∀ (column_name : String) (pre2 suf : List String) (post : List (List String)),
      column_name ∉ pre2 →
      ((pre2 ++ column_name :: suf).indexOf column_name = pre2.length ∧
       process_file column_name ((pre2 ++ column_name :: suf) :: post) =
         get_column_value_loop column_name post 1 true (pre2.length : Int) [] [] ∧
       ∀ (row : List String) (rest : List (List String)) (ln : Nat)
           (res : List String) (ws : List Nat),
         ¬("#REF!" ∈ row ∨ "#VALUE" ∈ row) →
         (pre2.length : Int) < (row.length : Int) →
         get_column_value_loop column_name (row :: rest) ln true
             (pre2.length : Int) res ws =
           get_column_value_loop column_name rest (ln + 1) true
             (pre2.length : Int) (res ++ [pyNth row (pre2.length : Int)]) ws) := by
  intro cn pre2 suf post hpre
  have hidx : (pre2 ++ cn :: suf).indexOf cn = pre2.length := by
    rw [List.indexOf_append_of_not_mem hpre, List.indexOf_cons_self,
      Nat.add_zero]
  refine ⟨hidx, ?_, ?_⟩
  · rw [process_file, loop_cons_header (by simp), hidx]
  · intro row rest ln res ws h hlen
    exact loop_cons_value h hlen

/-- Witness for C9: header `["email", "x", "email"]` resolves index 0, and a
clean row contributes its first field. -/
theorem C9_leftmost_header_witness :
    (["email", "x", "email"] : List String).indexOf "email" = 0 ∧
    process_file "email" [["email", "x", "email"], ["a@x.com", "b", "email"]] =
      get_column_value_loop "email" [["a@x.com", "b", "email"]] 1 true 0 [] [] ∧
    get_column_value_loop "email" [["a@x.com", "b", "email"]] 3 true 0 [] [] =
      get_column_value_loop "email" [] 4 true 0 ["a@x.com"] [] := by
  obtain ⟨h1, h2, h3⟩ :=
    C9_leftmost_header_occurrence "email" [] ["x", "email"]
      [["a@x.com", "b", "email"]] (by decide)
  exact ⟨h1, h2, h3 ["a@x.com", "b", "email"] [] 3 [] [] (by decide) (by decide)⟩

/-- C10: after the header, the loop aborts at a row exactly when one of its
whole fields equals `"#REF!"` or `"#VALUE"`; fields that merely contain a
marker as a substring, such as `"#VALUE!"` or `"x#REF!"`, are collected as
ordinary data. -/
theorem C10_marker_exact_equality :
    (∀ (column_name : String) (row : List String) (rest : List (List String))
        (ln : Nat) (ci : Int) (res : List String) (ws : List Nat),
      (get_column_value_loop column_name (row :: rest) ln true ci res ws =
          .error (ln + 1) ↔ ("#REF!" ∈ row ∨ "#VALUE" ∈ row))) ∧
    process_file "email" [["email"], ["#VALUE!"], ["x#REF!"]] =
      .ok (["#VALUE!", "x#REF!"], []) := by
  constructor
  · intro cn row rest ln ci res ws
    constructor
    · intro h
      by_contra hmark
      by_cases hlen : (row.length : Int) ≤ ci
      · rw [loop_cons_short hmark hlen] at h
        exact absurd (loop_error_gt h) (lt_irrefl _)
      · rw [loop_cons_value hmark (not_le.mp hlen)] at h
        exact absurd (loop_error_gt h) (lt_irrefl _)
    · exact loop_cons_marker
  · rfl

/-- Witness for C10: a row whose field is exactly `"#REF!"` aborts with its
line number. -/
theorem C10_marker_witness :
    get_column_value_loop "email" [["#REF!"]] 0 true 0 [] [] = .error 1 := by
  exact (C10_marker_exact_equality.1 "email" ["#REF!"] [] 0 0 [] []).mpr
    (Or.inl (by decide))

/-! ## Lemmas about the account store -/

theorem db_save_map_email (db : List Account) (a : Account) :
    (db_save db a).map Account.email = db.map Account.email := by
  rw [db_save, List.map_map]
  apply List.map_congr_left
  intro b _
  by_cases h : b.email = a.email
  · simp [Function.comp, h]
  · simp [Function.comp, h]

theorem emailsUnique_db_save {db : List Account} {a : Account}
    (hu : EmailsUnique db) : EmailsUnique (db_save db a) := by
  simp only [EmailsUnique] at *
  rw [db_save_map_email]
  exact hu

theorem mem_db_save_of_ne {db : List Account} {a b : Account} (hb : b ∈ db)
    (hne : b.email ≠ a.email) : b ∈ db_save db a := by
  rw [db_save]
  exact List.mem_map.mpr ⟨b, hb, by simp [hne]⟩

theorem mem_db_save_self {db : List Account} {a : Account}
    (h : ∃ c ∈ db, c.email = a.email) : a ∈ db_save db a := by
  obtain ⟨c, hc, he⟩ := h
  rw [db_save]
  exact List.mem_map.mpr ⟨c, hc, by simp [he]⟩

theorem db_find_eq_none {db : List Account} {e : String} :
    db_find db e = none ↔ ∀ a ∈ db, a.email ≠ e := by
  simp [db_find, List.find?_eq_none]

theorem db_find_eq_some {db : List Account} {a : Account}
    (hu : EmailsUnique db) (ha : a ∈ db) : db_find db a.email = some a := by
  induction db with
  | nil => simp at ha
  | cons b bs ih =>
    simp only [EmailsUnique, List.map_cons, List.nodup_cons] at hu
    rcases List.mem_cons.mp ha with rfl | hmem
    · exact List.find?_cons_of_pos _ (by simp)
    · have hb : b.email ≠ a.email := by
        intro h
        exact hu.1 (h ▸ List.mem_map.mpr ⟨a, hmem, rfl⟩)
      rw [db_find, List.find?_cons_of_neg _ (by simp [hb])]
      exact ih hu.2 hmem

theorem db_save_append {db : List Account} {c u : Account}
    (h : ∀ a ∈ db, a.email ≠ u.email) (hc : c.email = u.email) :
    db_save (db ++ [c]) u = db ++ [u] := by
  rw [db_save, List.map_append]
  congr 1
  · rw [show db = db.map id by simp]
    rw [List.map_map]
    apply List.map_congr_left
    intro a ha
    simp [h a (by simpa using ha)]
  · simp [hc]

/-- The per-email step with no group, when an account with this email already
exists: the store is left untouched. -/
theorem step_of_found_none {db : List Account} {e : String} {pw : String}
    {a : Account} (hf : db_find db e = some a) :
    create_user_step pw none db e = db := by
  simp [create_user_step, get_or_create, hf]

/-- The per-email step with a group, when an account with this email already
exists: nothing is created, only the group membership may be added. -/
theorem step_of_found_some {db : List Account} {e : String} {pw : String}
    {gr : String} {a : Account} (hf : db_find db e = some a) :
    create_user_step pw (some gr) db e =
      if gr ∈ a.groups then db
      else db_save db { a with groups := a.groups ++ [gr] } := by
  by_cases h : gr ∈ a.groups
  · simp [create_user_step, get_or_create, hf, h]
  · simp [create_user_step, get_or_create, hf, h]

/-- The per-email step with no group, when no account with this email exists:
a fresh account is appended, with the fixed display name and the hashed
password. -/
theorem step_of_not_found_none {db : List Account} {e : String} {pw : String}
    (hf : db_find db e = none) :
    create_user_step pw none db e =
      db ++ [{ email := e, name := "User Name", password := hash_password pw,
               groups := [] }] := by
  have hne : ∀ a ∈ db, a.email ≠ e := db_find_eq_none.mp hf
  simp only [create_user_step, get_or_create, hf]
  have hsave :
      db_save (db ++ [{ email := e, name := "", password := "", groups := [] }])
        { email := e, name := "User Name", password := hash_password pw,
          groups := [] } =
      db ++ [{ email := e, name := "User Name", password := hash_password pw,
               groups := [] }] :=
    db_save_append (by simpa using hne) rfl
  simpa using hsave

/-- The per-email step with a group, when no account with this email exists:
a fresh account is appended, with the fixed display name, the hashed
password, and the supplied group as its only membership. -/
theorem step_of_not_found_some {db : List Account} {e : String} {pw : String}
    {gr : String} (hf : db_find db e = none) :
    create_user_step pw (some gr) db e =
      db ++ [{ email := e, name := "User Name", password := hash_password pw,
               groups := [gr] }] := by
  have hne : ∀ a ∈ db, a.email ≠ e := db_find_eq_none.mp hf
  simp only [create_user_step, get_or_create, hf]
  have hsave1 :
      db_save (db ++ [{ email := e, name := "", password := "", groups := [] }])
        { email := e, name := "User Name", password := hash_password pw,
          groups := [] } =
      db ++ [{ email := e, name := "User Name", password := hash_password pw,
               groups := [] }] :=
    db_save_append (by simpa using hne) rfl
  have hsave2 :
      db_save (db ++ [{ email := e, name := "User Name",
                        password := hash_password pw, groups := [] }])
        { email := e, name := "User Name", password := hash_password pw,
          groups := [gr] } =
      db ++ [{ email := e, name := "User Name", password := hash_password pw,
               groups := [gr] }] :=
    db_save_append (by simpa using hne) rfl
  simp only [hsave1, List.not_mem_nil, if_false]
  simpa using hsave2

theorem step_mem_of_ne {pw : String} {g : Option String} {db : List Account}
    {e : String} {a : Account} (ha : a ∈ db) (hne : a.email ≠ e) :
    a ∈ create_user_step pw g db e := by
  cases hf : db_find db e with
  | some b =>
    have hbe : b.email = e := by simpa using List.find?_some hf
    cases g with
    | none => rw [step_of_found_none hf]; exact ha
    | some gr =>
      rw [step_of_found_some hf]
      by_cases h : gr ∈ b.groups
      · simpa [h] using ha
      · rw [if_neg h]
        exact mem_db_save_of_ne ha (by simp [hbe, hne])
  | none =>
    cases g with
    | none => rw [step_of_not_found_none hf]; exact List.mem_append_left _ ha
    | some gr => rw [step_of_not_found_some hf]; exact List.mem_append_left _ ha

theorem step_eq_self {pw : String} {g : Option String} {db : List Account}
    {a : Account} (hu : EmailsUnique db) (ha : a ∈ db)
    (hg : ∀ gr, g = some gr → gr ∈ a.groups) :
    create_user_step pw g db a.email = db := by
  cases g with
  | none => exact step_of_found_none (db_find_eq_some hu ha)
  | some gr =>
    rw [step_of_found_some (db_find_eq_some hu ha), if_pos (hg gr rfl)]

theorem step_add_group {pw : String} {db : List Account} {gr : String}
    {a : Account} (hu : EmailsUnique db) (ha : a ∈ db) (hg : gr ∉ a.groups) :
    create_user_step pw (some gr) db a.email =
      db_save db { a with groups := a.groups ++ [gr] } := by
  rw [step_of_found_some (db_find_eq_some hu ha), if_neg hg]

theorem emailsUnique_append_fresh {db : List Account} {a : Account}
    (hu : EmailsUnique db) (hne : ∀ b ∈ db, b.email ≠ a.email) :
    EmailsUnique (db ++ [a]) := by
  simp only [EmailsUnique, List.map_append, List.map] at *
  refine List.Nodup.append hu (List.nodup_singleton _) ?_
  intro x hx hx2
  simp only [List.mem_singleton] at hx2
  obtain ⟨b, hb, hbe⟩ := List.mem_map.mp hx
  exact hne b hb (by rw [hbe, hx2])

theorem emailsUnique_step {pw : String} {g : Option String} {db : List Account}
    {e : String} (hu : EmailsUnique db) :
    EmailsUnique (create_user_step pw g db e) := by
  cases hf : db_find db e with
  | some a =>
    cases g with
    | none => rw [step_of_found_none hf]; exact hu
    | some gr =>
      rw [step_of_found_some hf]
      by_cases h : gr ∈ a.groups
      · simpa [h] using hu
      · rw [if_neg h]
        exact emailsUnique_db_save hu
  | none =>
    cases g with
    | none =>
      rw [step_of_not_found_none hf]
      exact emailsUnique_append_fresh hu (db_find_eq_none.mp hf)
    | some gr =>
      rw [step_of_not_found_some hf]
      exact emailsUnique_append_fresh hu (db_find_eq_none.mp hf)

theorem emailsUnique_create_users {pw : String} {g : Option String} :
    ∀ (emails : List String) (db : List Account), EmailsUnique db →
      EmailsUnique (create_users emails pw g db)
  | [], _, hu => hu
  | _ :: rest, _, hu =>
    emailsUnique_create_users rest _ (emailsUnique_step hu)

/-- Strengthened frame invariant for `create_users`: every account present
before the run is still represented afterwards by an account with the same
email, name and password, whose memberships are either untouched or extended
by exactly the supplied group (and only when it was not already a member). -/
theorem create_users_frame_aux {pw : String} {g : Option String} :
    ∀ (emails : List String) (db : List Account) (a : Account),
      EmailsUnique db → a ∈ db →
      ∃ a', a' ∈ create_users emails pw g db ∧ a'.email = a.email ∧
        a'.name = a.name ∧ a'.password = a.password ∧
        (a'.groups = a.groups ∨
          ∃ gr, g = some gr ∧ gr ∉ a.groups ∧ a'.groups = a.groups ++ [gr]) := by
  intro emails
  induction emails with
  | nil =>
    intro db a _ ha
    exact ⟨a, ha, rfl, rfl, rfl, Or.inl rfl⟩
  | cons e rest ih =>
    intro db a hu ha
    show ∃ a', a' ∈ create_users rest pw g (create_user_step pw g db e) ∧ _
    by_cases hne : a.email = e
    · subst hne
      cases g with
      | none =>
        rw [step_eq_self hu ha (by intro gr h; cases h)]
        exact ih db a hu ha
      | some gr =>
        by_cases hgr : gr ∈ a.groups
        · rw [step_eq_self hu ha (by intro gr' h; cases h; exact hgr)]
          exact ih db a hu ha
        · rw [step_add_group hu ha hgr]
          have ha2 : ({ a with groups := a.groups ++ [gr] } : Account) ∈
              db_save db { a with groups := a.groups ++ [gr] } :=
            mem_db_save_self ⟨a, ha, rfl⟩
          obtain ⟨a', ha', he, hn, hp, hg⟩ :=
            ih _ _ (emailsUnique_db_save hu) ha2
          refine ⟨a', ha', he, hn, hp, ?_⟩
          rcases hg with h1 | ⟨gr', hgr', hnm, h2⟩
          · exact Or.inr ⟨gr, rfl, hgr, h1⟩
          · cases hgr'
            simp at hnm
    · exact ih _ _ (emailsUnique_step hu) (step_mem_of_ne ha hne)

/-- C6: the name and the password of an account are set only when the account
is newly created: an account already in the store when `create_users` runs
keeps its email, name and password, and the only possible change to it is
that the supplied group is appended to its memberships. -/
theorem C6_existing_accounts_frame :
    ∀ (emails : List String) (pw : String) (g : Option String)
      (db : List Account) (a : Account), EmailsUnique db → a ∈ db →
      ∃ a', a' ∈ create_users emails pw g db ∧ a'.email = a.email ∧
        a'.name = a.name ∧ a'.password = a.password ∧
        (a'.groups = a.groups ∨
          ∃ gr, g = some gr ∧ a'.groups = a.groups ++ [gr]) := by
  intro emails pw g db a hu ha
  obtain ⟨a', h1, h2, h3, h4, h5⟩ := create_users_frame_aux emails db a hu ha
  refine ⟨a', h1, h2, h3, h4, ?_⟩
  rcases h5 with h | ⟨gr, hgr, _, h⟩
  · exact Or.inl h
  · exact Or.inr ⟨gr, hgr, h⟩

/-- Witness for C6: provisioning `b@x.com` and the already-present `a@x.com`
leaves `a@x.com`'s name and password alone, only adding the group. -/
theorem C6_existing_accounts_witness :
    EmailsUnique [{ email := "a@x.com", name := "Old", password := "secret",
                    groups := ["other"] }] ∧
    ∃ a', a' ∈ create_users ["b@x.com", "a@x.com"] "p" (some "instructor")
        [{ email := "a@x.com", name := "Old", password := "secret",
           groups := ["other"] }] ∧
      a'.email = "a@x.com" ∧ a'.name = "Old" ∧ a'.password = "secret" ∧
      (a'.groups = ["other"] ∨
        ∃ gr, (some "instructor" : Option String) = some gr ∧
          a'.groups = ["other"] ++ [gr]) := by
  exact ⟨by unfold EmailsUnique; decide, C6_existing_accounts_frame ["b@x.com", "a@x.com"] "p"
    (some "instructor")
    [{ email := "a@x.com", name := "Old", password := "secret",
       groups := ["other"] }]
    { email := "a@x.com", name := "Old", password := "secret",
      groups := ["other"] } (by unfold EmailsUnique; decide) (by decide)⟩

/-- An email is provisioned in a store when some account carries it and is a
member of the supplied group (when one is supplied). -/
def Provisioned (g : Option String) (db : List Account) (e : String) : Prop :=
  ∃ a ∈ db, a.email = e ∧ ∀ gr, g = some gr → gr ∈ a.groups

theorem step_provisioned_self {pw : String} {g : Option String}
    {db : List Account} {e : String} :
    Provisioned g (create_user_step pw g db e) e := by
  cases hf : db_find db e with
  | some a =>
    have hae : a.email = e := by simpa using List.find?_some hf
    have hmem : a ∈ db := List.mem_of_find?_eq_some hf
    cases g with
    | none =>
      rw [step_of_found_none hf]
      exact ⟨a, hmem, hae, by intro gr h; cases h⟩
    | some gr =>
      rw [step_of_found_some hf]
      by_cases h : gr ∈ a.groups
      · rw [if_pos h]
        exact ⟨a, hmem, hae, by intro gr' h'; cases h'; exact h⟩
      · rw [if_neg h]
        refine ⟨{ a with groups := a.groups ++ [gr] },
          mem_db_save_self ⟨a, hmem, rfl⟩, hae, ?_⟩
        intro gr' h'
        cases h'
        simp
  | none =>
    cases g with
    | none =>
      rw [step_of_not_found_none hf]
      refine ⟨{ email := e, name := "User Name",
                password := hash_password pw, groups := [] },
        List.mem_append_right _ (by simp), rfl, ?_⟩
      intro gr h
      cases h
    | some gr =>
      rw [step_of_not_found_some hf]
      refine ⟨{ email := e, name := "User Name",
                password := hash_password pw, groups := [gr] },
        List.mem_append_right _ (by simp), rfl, ?_⟩
      intro gr' h'
      cases h'
      simp

theorem step_preserves_provisioned {pw : String} {g : Option String}
    {db : List Account} {e e' : String} (hu : EmailsUnique db)
    (h : Provisioned g db e) :
    Provisioned g (create_user_step pw g db e') e := by
  obtain ⟨a, ha, hae, hg⟩ := h
  by_cases hne : a.email = e'
  · rw [← hne, step_eq_self hu ha hg]
    exact ⟨a, ha, hae, hg⟩
  · exact ⟨a, step_mem_of_ne ha hne, hae, hg⟩

theorem create_users_preserves_provisioned {pw : String} {g : Option String}
    {e : String} :
    ∀ (emails : List String) (db : List Account), EmailsUnique db →
      Provisioned g db e → Provisioned g (create_users emails pw g db) e
  | [], _, _, h => h
  | _ :: rest, _, hu, h =>
    create_users_preserves_provisioned rest _ (emailsUnique_step hu)
      (step_preserves_provisioned hu h)

theorem create_users_provisions {pw : String} {g : Option String} :
    ∀ (emails : List String) (db : List Account), EmailsUnique db →
      ∀ e ∈ emails, Provisioned g (create_users emails pw g db) e := by
  intro emails
  induction emails with
  | nil => intro db _ e he; cases he
  | cons e0 rest ih =>
    intro db hu e he
    rcases List.mem_cons.mp he with rfl | hmem
    · exact create_users_preserves_provisioned rest _ (emailsUnique_step hu)
        step_provisioned_self
    · exact ih _ (emailsUnique_step hu) e hmem

theorem create_users_id_of_provisioned {pw : String} {g : Option String} :
    ∀ (emails : List String) (db : List Account), EmailsUnique db →
      (∀ e ∈ emails, Provisioned g db e) → create_users emails pw g db = db := by
  intro emails
  induction emails with
  | nil => intro db _ _; rfl
  | cons e0 rest ih =>
    intro db hu h
    obtain ⟨a, ha, hae, hg⟩ := h e0 (by simp)
    show create_users rest pw g (create_user_step pw g db e0) = db
    rw [← hae, step_eq_self hu ha hg]
    exact ih db hu (fun e he => h e (by simp [he]))

/-- C7: provisioning is idempotent — a second run of `create_users` with the
same emails, password and group over the store left by the first run changes
nothing: no account is created and no membership is added. -/
theorem C7_provisioning_idempotent :
    ∀ (emails : List String) (pw : String) (g : Option String)
      (db : List Account), EmailsUnique db →
      create_users emails pw g (create_users emails pw g db) =
        create_users emails pw g db := by
  intro emails pw g db hu
  exact create_users_id_of_provisioned emails _
    (emailsUnique_create_users emails db hu)
    (fun e he => create_users_provisions emails db hu e he)

/-- Witness for C7: re-running the provisioner over the store produced from
one existing and one fresh account is the identity. -/
theorem C7_provisioning_witness :
    create_users ["a@x.com", "b@x.com"] "p" (some "instructor")
      (create_users ["a@x.com", "b@x.com"] "p" (some "instructor")
        [{ email := "a@x.com", name := "Old", password := "secret",
           groups := [] }]) =
    create_users ["a@x.com", "b@x.com"] "p" (some "instructor")
      [{ email := "a@x.com", name := "Old", password := "secret",
         groups := [] }] := by
  exact C7_provisioning_idempotent ["a@x.com", "b@x.com"] "p"
    (some "instructor")
    [{ email := "a@x.com", name := "Old", password := "secret", groups := [] }]
    (by unfold EmailsUnique; decide)

/-! ## Claims about the entry point -/

/-- A token list whose first token does not begin with `-` is returned by
`getopt` wholesale as positional arguments (option parsing stops at the first
non-option token). -/
theorem getopt_loop_args {f0 : String} {fs : List String}
    (h : f0.data.head? ≠ some '-') :
    getopt_loop (f0 :: fs) = .ok ([], f0 :: fs) := by
  have hne : f0 ≠ "--" := by
    intro he
    rw [he] at h
    exact h rfl
  rw [getopt_loop, if_neg hne]
  cases hd : f0.data with
  | nil => rfl
  | cons c cs =>
    have hc : c ≠ '-' := by
      intro he
      rw [hd, he] at h
      exact h rfl
    split
    · rename_i heq
      refine absurd ?_ hc
      injection heq with h1 h2
    · rfl

/-- C8: invoked with no argument at all, the entry point exits immediately
with usage-error code 1, touching nothing; invoked with positional file
arguments none of which exists, it reports exactly those files as missing,
returns normally (no error exit), and leaves the user store untouched — no
account is provisioned. -/
theorem C8_entry_exit_behavior :
    (∀ (env : RunEnv) (st : RunState),
      run [] env st =
        { outcome := .exited 1, missingFiles := [], state := st }) ∧
    (∀ (s0 : String) (env : RunEnv) (st : RunState) (files : List String),
      shlex_split s0 = files →
      getopt_loop files = .ok ([], files) →
      files ≠ [] →
      (∀ f ∈ files, env.fileExists f = false) →
      env.superuserName = none →
      (run [s0] env st).outcome = .finished ∧
      (run [s0] env st).missingFiles = files ∧
      (run [s0] env st).state.users = st.users) := by
  constructor
  · intro env st
    rfl
  · intro s0 env st files h1 h2 hne h4 h5
    have hnp : files.filter (fun x => ¬ env.fileExists x) = files := by
      apply List.filter_eq_self.mpr
      intro a ha
      simp [h4 a ha]
    have hfil : files.filter (fun x => x ∉ files) = [] := by
      rw [List.filter_eq_nil_iff]
      intro a ha
      simp [ha]
    have hrun : run [s0] env st =
        { outcome := .finished, missingFiles := files,
          state :=
            if "instructor" ∈ st.groupNames then st
            else { st with groupNames := st.groupNames ++ ["instructor"] } } := by
      rw [run, h1, h2]
      simp only [List.foldl_nil, hnp, h5, if_neg (by simpa using hne), hfil,
        if_pos rfl]
      split <;> rfl
    refine ⟨by rw [hrun], by rw [hrun], ?_⟩
    rw [hrun]
    split <;> rfl

/-- Witness for C8: `run` on the single argument string `"a.csv b.csv"` in an
environment where neither file exists reports both as missing, finishes
without an error exit, and provisions nobody. -/
theorem C8_entry_exit_witness :
    (run []
      { fileExists := fun _ => false, fileRows := fun _ => [],
        superuserName := none, superuserPassword := none }
      { users := [], groupNames := [] } =
      { outcome := .exited 1, missingFiles := [],
        state := { users := [], groupNames := [] } }) ∧
    ((run ["a.csv b.csv"]
      { fileExists := fun _ => false, fileRows := fun _ => [],
        superuserName := none, superuserPassword := none }
      { users := [], groupNames := [] }).outcome = .finished ∧
     (run ["a.csv b.csv"]
      { fileExists := fun _ => false, fileRows := fun _ => [],
        superuserName := none, superuserPassword := none }
      { users := [], groupNames := [] }).missingFiles = ["a.csv", "b.csv"] ∧
     (run ["a.csv b.csv"]
      { fileExists := fun _ => false, fileRows := fun _ => [],
        superuserName := none, superuserPassword := none }
      { users := [], groupNames := [] }).state.users = []) := by
  constructor
  · exact C8_entry_exit_behavior.1
      { fileExists := fun _ => false, fileRows := fun _ => [],
        superuserName := none, superuserPassword := none }
      { users := [], groupNames := [] }
  · exact C8_entry_exit_behavior.2 "a.csv b.csv"
      { fileExists := fun _ => false, fileRows := fun _ => [],
        superuserName := none, superuserPassword := none }
      { users := [], groupNames := [] } ["a.csv", "b.csv"] (by rfl)
      (by rfl) (by decide) (by intro f _; rfl) rfl

/-! ## The dialect-sniffing claim -/

/-- C1 counterexample: for the semicolon-delimited file
`"id;email\n1;a@x.com"` the sniffer infers the delimiter `';'`, yet the
extractor parses the file into comma-split rows — each line one single field
still containing the semicolons — rather than rows split on the sniffed
delimiter, and consequently finds no `email` column at all where parsing with
the sniffed dialect would extract `["a@x.com"]`. -/
theorem C1_semicolon_counterexample :
    sniffDelimiter (sample1024 "id;email\n1;a@x.com") = some ';' ∧
    parseFile "id;email\n1;a@x.com" = [["id;email"], ["1;a@x.com"]] ∧
    parseFile "id;email\n1;a@x.com" ≠
      csvReadRows "id;email\n1;a@x.com" ';' ∧
    get_column_value_list_raw ["id;email\n1;a@x.com"] "email" = .ok ([], []) ∧
    get_column_value_list [csvReadRows "id;email\n1;a@x.com" ';'] "email" =
      .ok (["a@x.com"], []) := by
  exact ⟨by decide, by decide, by decide, by rfl, by rfl⟩

/-- C1 amended: the extractor samples the first 1024 bytes and sniffs a
dialect from them, but it then re-reads the file with the delimiter keyword
explicitly set to `','`, which overrides the sniffed delimiter: every file's
rows are split on commas.  A file whose sniffed delimiter is the comma is
therefore split on its sniffed delimiter; a semicolon-delimited file is
not. -/
theorem C1_delimiter_always_comma :
    ∀ content : String,
      parseFile content = csvReadRows content ',' ∧
      (sniffDelimiter (sample1024 content) = some ',' →
        parseFile content = parseFileWithSniffedDialect content) := by
  intro content
  refine ⟨rfl, ?_⟩
  intro h
  simp only [parseFileWithSniffedDialect, h]
  rfl

/-- Witness for C1: a comma-delimited file is parsed with its sniffed
dialect. -/
theorem C1_delimiter_witness :
    parseFile "id,email\n1,a@x.com" = csvReadRows "id,email\n1,a@x.com" ',' ∧
    parseFile "id,email\n1,a@x.com" =
      parseFileWithSniffedDialect "id,email\n1,a@x.com" := by
  exact ⟨(C1_delimiter_always_comma "id,email\n1,a@x.com").1,
    (C1_delimiter_always_comma "id,email\n1,a@x.com").2 (by decide)⟩

end InitialData
